import Mathlib

/-!
Verification of the BUNIT ASCII fire animation (`flame9.py`).

The program keeps a flat heat buffer `b` of length `width*height + width + 1`
(all cells are Python integers, so we model the buffer as `List Int`).
Each frame it
  * injects heat: `for _ in range(int(width/9)): b[int(random.random()*width
    + width*(height-1))] = 65`,
  * runs the in-place diffusion/render loop: `for i in range(size):
    b[i] = int((b[i] + b[i+1] + b[i+width] + b[i+width+1]) / 4)` together with
    colour selection, glyph selection and the draw guard, and
  * polls for a key for up to 30 ms; any key stops the loop, otherwise
    `frame_count` is incremented.
On exit the terminal is restored and a summary message is printed.

Randomness is modelled by an explicit stream of column draws
(`rand : Nat → Nat`, the value `int(random.random()*width)` of each draw),
and key input by a stream `keys : Nat → Bool` (`keys k` is whether
`screen.getch()` returned a key at the poll made when `frame_count = k`).
-/

/-- The glyph ramp `char` (flame9.py line 21), coldest to hottest. -/
def char : List Char := [' ', '.', ':', '^', '*', 'x', 's', 'S', '#', '$']

/-- The initial heat buffer `b = [0] * (size + width + 1)` with
`size = width * height` (flame9.py lines 20 and 22). -/
def initBuf (width height : Nat) : List Int :=
  List.replicate (width * height + width + 1) 0

/-- Python's `int(x / 4)` applied to an integer `x`: float division by 4 is
exact at the magnitudes the program produces, and `int` truncates toward
zero, which is t-division. -/
def pyDiv4 (x : Int) : Int := Int.tdiv x 4

/-- The right-hand side of the diffusion update
`int((b[i] + b[i+1] + b[i+width] + b[i+width+1]) / 4)` (flame9.py line 42).
Out-of-range reads do not occur in the program (the slack region covers
them); `getD` with default 0 makes the model total. -/
def diffVal (width : Nat) (b : List Int) (i : Nat) : Int :=
  pyDiv4 (b.getD i 0 + b.getD (i + 1) 0 + b.getD (i + width) 0 + b.getD (i + width + 1) 0)

/-- The in-place diffusion loop `for i in range(size): b[i] = ...`
(flame9.py lines 41-42), started at index `i` with `n` iterations left:
each step writes `diffVal` of the CURRENT buffer back into cell `i`. -/
def passInPlace (width : Nat) : List Int → Nat → Nat → List Int
  | b, _, 0 => b
  | b, i, n + 1 => passInPlace width (b.set i (diffVal width b i)) (i + 1) n

/-- One whole in-place diffusion pass over `i = 0 .. size-1`
(flame9.py lines 41-42). -/
def diffusePass (width size : Nat) (b : List Int) : List Int :=
  passInPlace width b 0 size

/-- Snapshot variant of the diffusion loop, following the spec's wording:
every step reads all four neighbours from the fixed pre-pass buffer `orig`
instead of the buffer being mutated. Used to compare against the in-place
pass of the source. -/
def passSnapshot (width : Nat) (orig : List Int) : List Int → Nat → Nat → List Int
  | b, _, 0 => b
  | b, i, n + 1 => passSnapshot width orig (b.set i (diffVal width orig i)) (i + 1) n

/-- One whole snapshot diffusion pass over `i = 0 .. size-1`. -/
def diffuseSnapshot (width size : Nat) (b : List Int) : List Int :=
  passSnapshot width b b 0 size

/-- One heat injection `b[int(random.random()*width + width*(height-1))] = 65`
(flame9.py line 38), with `c = int(random.random() * width)` the column draw:
the target flat index is `c + width * (height - 1)`. -/
def injectOne (width height : Nat) (c : Nat) (b : List Int) : List Int :=
  b.set (c + width * (height - 1)) 65

/-- The injection loop `for _ in range(int(width / 9)): ...`
(flame9.py lines 37-38); `rand k` is the column drawn by the `k`-th
iteration. -/
def injectPhase (width height : Nat) (rand : Nat → Nat) (b : List Int) : List Int :=
  (List.range (width / 9)).foldl (fun acc k => injectOne width height (rand k) acc) b

/-- Colour selection
`4 if b[i] > 15 else (3 if b[i] > 9 else (2 if b[i] > 4 else 1))`
(flame9.py line 43). -/
def colorOf (v : Int) : Nat :=
  if v > 15 then 4 else if v > 9 then 3 else if v > 4 then 2 else 1

/-- Glyph ramp index `9 if b[i] > 9 else b[i]` (flame9.py line 54). -/
def rampIdx (v : Int) : Int := if v > 9 then 9 else v

/-- Whether the glyph for flat index `i` is drawn at all: the source guards
with `if i < size - 1:` (line 45) and then `if row < height and col < width:`
(line 49), where `row = int(i / width)`, `col = i % width` and
`size = width * height`. -/
def drawAttempted (width height i : Nat) : Bool :=
  decide (i < width * height - 1) &&
    (decide (i / width < height) && decide (i % width < width))

/-- One per-frame buffer operation: an injection phase (with its stream of
column draws) or an in-place diffusion pass over the whole grid. -/
inductive FrameOp where
  | inject (rand : Nat → Nat)
  | diffuse

/-- Apply one frame operation to the buffer (flame9.py lines 37-42). -/
def applyOp (width height : Nat) (b : List Int) : FrameOp → List Int
  | FrameOp.inject rand => injectPhase width height rand b
  | FrameOp.diffuse => diffusePass width (width * height) b

/-- Run a sequence of injection phases and diffusion passes from the initial
all-zero buffer. -/
def runOps (width height : Nat) (ops : List FrameOp) : List Int :=
  ops.foldl (applyOp width height) (initBuf width height)

/-- The summary printed by the `finally` block
`print(f"\n🔥 BUNIT Animation stopped after {frame_count} frames\n")`
(flame9.py line 72). -/
def stopMessage (n : Nat) : String :=
  "\n🔥 BUNIT Animation stopped after " ++ toString n ++ " frames\n"

/-- The ways the program terminates: a key press breaking the frame loop, a
`KeyboardInterrupt` during the frame loop (caught at line 68), or a
`KeyboardInterrupt` before the frame loop / during startup (caught at the
top level, line 77). `frames` is the value of `frame_count` at that point. -/
inductive ExitPath where
  | keyStop (frames : Nat)
  | loopInterrupt (frames : Nat)
  | startupInterrupt

/-- Process exit status for each exit path: a key stop and a caught in-loop
interrupt end `main` normally (exit status 0), and the top-level handler
calls `sys.exit(0)`. -/
def exitCode : ExitPath → Nat := fun _ => 0

/-- What each exit path prints after the terminal is restored: the two
in-loop paths reach the `finally` block and print `stopMessage frame_count`
(line 72); the startup-interrupt path prints `"\nAnimation stopped.\n"`
(line 78). -/
def exitMessage : ExitPath → String
  | ExitPath.keyStop n => stopMessage n
  | ExitPath.loopInterrupt n => stopMessage n
  | ExitPath.startupInterrupt => "\nAnimation stopped.\n"

/-- The key-poll loop skeleton (flame9.py lines 63-66): at the poll made
with `frame_count = count`, a key (`keys count = true`) breaks the loop with
that `frame_count`; otherwise `frame_count` is incremented and the next
frame runs. `fuel` bounds the number of polls modelled; `none` means no key
arrived within `fuel` polls. -/
def loopExit (keys : Nat → Bool) : Nat → Nat → Option Nat
  | _, 0 => none
  | count, fuel + 1 =>
    if keys count then some count else loopExit keys (count + 1) fuel

/-! ### Basic facts about `getD`, `set` and `replicate` -/

theorem getD_set_ne (l : List Int) (i j : Nat) (v : Int) (h : i ≠ j) :
    (l.set i v).getD j 0 = l.getD j 0 := by
  simp [List.getD_eq_getElem?_getD, List.getElem?_set_ne h]

theorem getD_set_self_of_lt (l : List Int) (i : Nat) (v : Int) (h : i < l.length) :
    (l.set i v).getD i 0 = v := by
  simp [List.getD_eq_getElem?_getD, List.getElem?_set_self, h]

theorem getD_set_cases (l : List Int) (i j : Nat) (v : Int) :
    (l.set i v).getD j 0 = v ∨ (l.set i v).getD j 0 = l.getD j 0 := by
  rcases eq_or_ne i j with rfl | hij
  · by_cases hl : i < l.length
    · exact Or.inl (getD_set_self_of_lt l i v hl)
    · exact Or.inr (by rw [List.set_eq_of_length_le (Nat.le_of_not_lt hl)])
  · exact Or.inr (getD_set_ne l i j v hij)

theorem getD_replicate_zero (n j : Nat) : (List.replicate n (0 : Int)).getD j 0 = 0 := by
  simp only [List.getD_eq_getElem?_getD, List.getElem?_replicate]
  split <;> rfl

/-! ### The in-place pass coincides with the snapshot pass

Every read of iteration `i` is at index `i`, `i+1`, `i+width` or
`i+width+1`, all of which are `≥ i`, while the writes of the earlier
iterations are at indices `< i`: the loop never reads a cell updated
earlier in the same pass. -/

theorem diffVal_congr_from (width : Nat) (b orig : List Int) (i : Nat)
    (h : ∀ j, i ≤ j → b.getD j 0 = orig.getD j 0) :
    diffVal width b i = diffVal width orig i := by
  unfold diffVal
  rw [h i (Nat.le_refl i), h (i + 1) (by omega), h (i + width) (by omega),
    h (i + width + 1) (by omega)]

theorem passInPlace_eq_passSnapshot (width : Nat) :
    ∀ (n : Nat) (orig b : List Int) (i : Nat),
      (∀ j, i ≤ j → b.getD j 0 = orig.getD j 0) →
      passInPlace width b i n = passSnapshot width orig b i n
  | 0, _, _, _, _ => rfl
  | n + 1, orig, b, i, h => by
    unfold passInPlace passSnapshot
    rw [diffVal_congr_from width b orig i h]
    exact passInPlace_eq_passSnapshot width n orig (b.set i (diffVal width orig i)) (i + 1)
      (fun j hj => by
        rw [getD_set_ne b i j _ (by omega)]
        exact h j (by omega))

theorem diffusePass_eq_diffuseSnapshot (width size : Nat) (b : List Int) :
    diffusePass width size b = diffuseSnapshot width size b :=
  passInPlace_eq_passSnapshot width size b b 0 (fun _ _ => rfl)

theorem length_passInPlace (width : Nat) :
    ∀ (n : Nat) (b : List Int) (i : Nat), (passInPlace width b i n).length = b.length
  | 0, _, _ => rfl
  | n + 1, b, i => by
    unfold passInPlace
    rw [length_passInPlace width n (b.set i (diffVal width b i)) (i + 1), List.length_set]

/-! ### Heat bounds: every reachable cell value lies in `[0, 65]` -/

/-- All cells of `b` (and the out-of-range default) lie in `[0, 65]`. -/
def HeatBounded (b : List Int) : Prop :=
  ∀ j : Nat, 0 ≤ b.getD j 0 ∧ b.getD j 0 ≤ 65

theorem heatBounded_initBuf (width height : Nat) : HeatBounded (initBuf width height) := by
  intro j
  rw [initBuf, getD_replicate_zero]
  exact ⟨le_refl 0, by norm_num⟩

theorem pyDiv4_bounds (x : Int) (h0 : 0 ≤ x) (h1 : x ≤ 260) :
    0 ≤ pyDiv4 x ∧ pyDiv4 x ≤ 65 := by
  rw [pyDiv4, Int.tdiv_eq_ediv h0 (by norm_num)]
  omega

theorem diffVal_bounds (width : Nat) (b : List Int) (i : Nat) (h : HeatBounded b) :
    0 ≤ diffVal width b i ∧ diffVal width b i ≤ 65 := by
  have h1 := h i
  have h2 := h (i + 1)
  have h3 := h (i + width)
  have h4 := h (i + width + 1)
  exact pyDiv4_bounds _ (by omega) (by omega)

theorem heatBounded_set (b : List Int) (i : Nat) (v : Int) (hv : 0 ≤ v ∧ v ≤ 65)
    (h : HeatBounded b) : HeatBounded (b.set i v) := by
  intro j
  rcases getD_set_cases b i j v with hc | hc <;> rw [hc]
  · exact hv
  · exact h j

theorem heatBounded_passInPlace (width : Nat) :
    ∀ (n : Nat) (b : List Int) (i : Nat), HeatBounded b →
      HeatBounded (passInPlace width b i n)
  | 0, _, _, h => h
  | n + 1, b, i, h => by
    unfold passInPlace
    exact heatBounded_passInPlace width n _ (i + 1)
      (heatBounded_set b i _ (diffVal_bounds width b i h) h)

theorem heatBounded_injectFold (width height : Nat) (rand : Nat → Nat) :
    ∀ (ks : List Nat) (b : List Int), HeatBounded b →
      HeatBounded (ks.foldl (fun acc k => injectOne width height (rand k) acc) b)
  | [], _, h => h
  | k :: ks, b, h => by
    rw [List.foldl_cons]
    exact heatBounded_injectFold width height rand ks _
      (heatBounded_set b _ 65 (by norm_num) h)

theorem heatBounded_applyOp (width height : Nat) (b : List Int) (op : FrameOp)
    (h : HeatBounded b) : HeatBounded (applyOp width height b op) := by
  cases op with
  | inject rand => exact heatBounded_injectFold width height rand _ b h
  | diffuse => exact heatBounded_passInPlace width _ b 0 h

theorem heatBounded_runOps (width height : Nat) (ops : List FrameOp) :
    HeatBounded (runOps width height ops) := by
  rw [runOps]
  have : ∀ (l : List FrameOp) (b : List Int), HeatBounded b →
      HeatBounded (l.foldl (applyOp width height) b) := by
    intro l
    induction l with
    | nil => exact fun b h => h
    | cons op l ih =>
      intro b h
      rw [List.foldl_cons]
      exact ih _ (heatBounded_applyOp width height b op h)
  exact this ops _ (heatBounded_initBuf width height)

/-! ### The all-zero buffer is a fixed point of every operation when no
heat is injected -/

/-- All cells of `b` (and the out-of-range default) are `0`. -/
def AllZero (b : List Int) : Prop := ∀ j : Nat, b.getD j 0 = 0

theorem allZero_initBuf (width height : Nat) : AllZero (initBuf width height) :=
  fun j => by rw [initBuf, getD_replicate_zero]

theorem allZero_set_zero (b : List Int) (i : Nat) (h : AllZero b) :
    AllZero (b.set i 0) := by
  intro j
  rcases getD_set_cases b i j 0 with hc | hc <;> rw [hc]
  exact h j

theorem diffVal_allZero (width : Nat) (b : List Int) (i : Nat) (h : AllZero b) :
    diffVal width b i = 0 := by
  rw [diffVal, h i, h (i + 1), h (i + width), h (i + width + 1)]
  rfl

theorem allZero_passInPlace (width : Nat) :
    ∀ (n : Nat) (b : List Int) (i : Nat), AllZero b →
      AllZero (passInPlace width b i n)
  | 0, _, _, h => h
  | n + 1, b, i, h => by
    unfold passInPlace
    rw [diffVal_allZero width b i h]
    exact allZero_passInPlace width n _ (i + 1) (allZero_set_zero b i h)

theorem injectPhase_of_lt_nine (width height : Nat) (rand : Nat → Nat)
    (b : List Int) (hw : width < 9) : injectPhase width height rand b = b := by
  rw [injectPhase, Nat.div_eq_of_lt hw]
  rfl

theorem allZero_runOps (width height : Nat) (ops : List FrameOp) (hw : width < 9) :
    AllZero (runOps width height ops) := by
  rw [runOps]
  have : ∀ (l : List FrameOp) (b : List Int), AllZero b →
      AllZero (l.foldl (applyOp width height) b) := by
    intro l
    induction l with
    | nil => exact fun b h => h
    | cons op l ih =>
      intro b h
      rw [List.foldl_cons]
      refine ih _ ?_
      cases op with
      | inject rand =>
        rw [applyOp, injectPhase_of_lt_nine width height rand b hw]
        exact h
      | diffuse => exact allZero_passInPlace width _ b 0 h
  exact this ops _ (allZero_initBuf width height)

/-! ### What an injection phase can change -/

theorem injectOne_getD_target (width height : Nat) (c : Nat) (b : List Int)
    (hlen : c + width * (height - 1) < b.length) :
    (injectOne width height c b).getD (c + width * (height - 1)) 0 = 65 :=
  getD_set_self_of_lt b _ 65 hlen

theorem injectOne_getD_other (width height : Nat) (c : Nat) (b : List Int)
    (j : Nat) (hj : j ≠ c + width * (height - 1)) :
    (injectOne width height c b).getD j 0 = b.getD j 0 :=
  getD_set_ne b _ j 65 (fun h => hj h.symm)

theorem injectFold_changes (width height : Nat) (rand : Nat → Nat) :
    ∀ (ks : List Nat) (b : List Int) (j : Nat),
      (∀ k, rand k < width) →
      (ks.foldl (fun acc k => injectOne width height (rand k) acc) b).getD j 0 ≠ b.getD j 0 →
      (ks.foldl (fun acc k => injectOne width height (rand k) acc) b).getD j 0 = 65 ∧
        width * (height - 1) ≤ j ∧ j < width * (height - 1) + width
  | [], _, _, _, hne => absurd rfl hne
  | k :: ks, b, j, hr, hne => by
    rw [List.foldl_cons] at hne ⊢
    by_cases hmid :
        (ks.foldl (fun acc k => injectOne width height (rand k) acc)
          (injectOne width height (rand k) b)).getD j 0 =
        (injectOne width height (rand k) b).getD j 0
    · rw [hmid] at hne ⊢
      have hj : j = rand k + width * (height - 1) := by
        by_contra hj
        exact hne (injectOne_getD_other width height (rand k) b j hj)
      have h65 : (injectOne width height (rand k) b).getD j 0 = 65 := by
        rcases getD_set_cases b (rand k + width * (height - 1)) j 65 with hc | hc
        · exact hc
        · exact absurd hc hne
      refine ⟨h65, ?_, ?_⟩
      · omega
      · have := hr k
        omega
    · exact injectFold_changes width height rand ks (injectOne width height (rand k) b) j hr hmid

/-! ### The key-poll loop returns the number of completed frames -/

theorem loopExit_first_key (keys : Nat → Bool) :
    ∀ (fuel start N : Nat), start ≤ N → N < start + fuel →
      (∀ m, start ≤ m → m < N → keys m = false) → keys N = true →
      loopExit keys start fuel = some N
  | 0, start, N, hle, hlt, _, _ => absurd hlt (by omega)
  | fuel + 1, start, N, hle, hlt, hbefore, hkey => by
    unfold loopExit
    rcases eq_or_ne start N with rfl | hne
    · rw [hkey]
      rfl
    · rw [hbefore start (Nat.le_refl start) (by omega)]
      exact loopExit_first_key keys fuel (start + 1) N (by omega) (by omega)
        (fun m hm hmN => hbefore m (by omega) hmN) hkey

/-! ## The claims -/

/-- C1, as stated: there is some buffer state on which the sequential
in-place diffusion pass differs from the pass computed from a snapshot of
the pre-pass values. This is false: every read of iteration `i` (indices
`i`, `i+1`, `i+width`, `i+width+1`) is at an index `≥ i`, while earlier
iterations only wrote indices `< i`, so the two passes always agree. -/
theorem C1_claim_false :
    ¬ ∃ (width height : Nat) (b : List Int),
      0 < width ∧ 0 < height ∧
      diffusePass width (width * height) b ≠ diffuseSnapshot width (width * height) b := by
  rintro ⟨width, height, b, -, -, hne⟩
  exact hne (diffusePass_eq_diffuseSnapshot width (width * height) b)

/-- C1 (amended): the in-place diffusion pass never reads a value updated
earlier in the same pass — all its reads are at indices `≥ i` — so for
every width, pass length and buffer state it produces exactly the same
resulting buffer as the pass computed from a snapshot of the pre-pass
values. -/
theorem C1_pass_equals_snapshot (width size : Nat) (b : List Int) :
    diffusePass width size b = diffuseSnapshot width size b :=
  diffusePass_eq_diffuseSnapshot width size b

/-- C2: for `width, height > 0` the buffer is allocated with length exactly
`width*height + width + 1`; every diffusion read index (`i`, `i+1`,
`i+width`, `i+width+1` for `i < width*height`) is strictly below that
length, and the diffusion pass preserves the buffer length, so reads made
mid-pass stay in bounds as well. -/
theorem C2_buffer_alloc_reads_in_bounds (width height : Nat)
    (_hw : 0 < width) (_hh : 0 < height) :
    (initBuf width height).length = width * height + width + 1 ∧
    (∀ i, i < width * height →
      i < width * height + width + 1 ∧ i + 1 < width * height + width + 1 ∧
      i + width < width * height + width + 1 ∧
      i + width + 1 < width * height + width + 1) ∧
    (∀ b : List Int, (diffusePass width (width * height) b).length = b.length) := by
  refine ⟨?_, fun i hi => by omega, fun b => length_passInPlace width (width * height) b 0⟩
  rw [initBuf, List.length_replicate]

/-- Witness for C2 at `width = 9`, `height = 3`. -/
theorem C2_witness :
    0 < 9 ∧ 0 < 3 ∧
    ((initBuf 9 3).length = 9 * 3 + 9 + 1 ∧
      (∀ i, i < 9 * 3 →
        i < 9 * 3 + 9 + 1 ∧ i + 1 < 9 * 3 + 9 + 1 ∧
        i + 9 < 9 * 3 + 9 + 1 ∧ i + 9 + 1 < 9 * 3 + 9 + 1) ∧
      (∀ b : List Int, (diffusePass 9 (9 * 3) b).length = b.length)) :=
  ⟨by norm_num, by norm_num, C2_buffer_alloc_reads_in_bounds 9 3 (by norm_num) (by norm_num)⟩

/-- C3, as stated: drawing is skipped iff `row ≥ height` or `col ≥ width`.
This is false: at `width = 9`, `height = 3` the flat index `i = 26`
(`= size - 1`) has `row = 2 < 3` and `col = 8 < 9`, yet the guard
`if i < size - 1:` skips the draw. -/
theorem C3_claim_false :
    drawAttempted 9 3 26 = false ∧ 26 < 9 * 3 ∧ 26 / 9 < 3 ∧ 26 % 9 < 9 := by
  decide

/-- C3 (amended): for `i < width*height`, the glyph for cell `i` is drawn
iff `i + 1 < width*height`, i.e. it is skipped exactly at the last flat
index `size - 1`; the defensive `row < height and col < width` guard never
fires, since `row < height` and `col < width` always hold there. (A failed
draw inside the guard is swallowed by `except curses.error: pass` and does
not abort the frame.) -/
theorem C3_draw_iff (width height i : Nat) (hw : 0 < width) (hi : i < width * height) :
    (drawAttempted width height i = true ↔ i + 1 < width * height) ∧
    i / width < height ∧ i % width < width := by
  have hdiv : i / width < height := Nat.div_lt_of_lt_mul (by omega)
  have hmod : i % width < width := Nat.mod_lt i hw
  refine ⟨?_, hdiv, hmod⟩
  rw [drawAttempted]
  simp only [Bool.and_eq_true, decide_eq_true_eq, hdiv, hmod, and_true, true_and]
  omega

/-- Witness for C3 (amended) at `width = 9`, `height = 3`, `i = 5`. -/
theorem C3_witness :
    0 < 9 ∧ 5 < 9 * 3 ∧
    ((drawAttempted 9 3 5 = true ↔ 5 + 1 < 9 * 3) ∧ 5 / 9 < 3 ∧ 5 % 9 < 9) :=
  ⟨by norm_num, by norm_num, C3_draw_iff 9 3 5 (by norm_num) (by norm_num)⟩

/-- C4: on the non-negative heat values the colour tiers partition the
range with no gaps or overlaps: tier 1 exactly on `0..4`, tier 2 exactly on
`5..9`, tier 3 exactly on `10..15`, tier 4 exactly on `> 15`. -/
theorem C4_color_tiers (v : Int) (hv : 0 ≤ v) :
    (colorOf v = 1 ↔ 0 ≤ v ∧ v ≤ 4) ∧ (colorOf v = 2 ↔ 5 ≤ v ∧ v ≤ 9) ∧
    (colorOf v = 3 ↔ 10 ≤ v ∧ v ≤ 15) ∧ (colorOf v = 4 ↔ 15 < v) := by
  unfold colorOf
  split_ifs <;> omega

/-- Witness for C4 at `v = 7`. -/
theorem C4_witness :
    (0 : Int) ≤ 7 ∧
    ((colorOf 7 = 1 ↔ (0 : Int) ≤ 7 ∧ (7 : Int) ≤ 4) ∧
      (colorOf 7 = 2 ↔ (5 : Int) ≤ 7 ∧ (7 : Int) ≤ 9) ∧
      (colorOf 7 = 3 ↔ (10 : Int) ≤ 7 ∧ (7 : Int) ≤ 15) ∧
      (colorOf 7 = 4 ↔ (15 : Int) < 7)) :=
  ⟨by norm_num, C4_color_tiers 7 (by norm_num)⟩

/-- C5: with the column draws `rand` modelling `int(random.random()*width)`
(so each draw is `< width`), every single injection targets the flat index
`c + width*(height-1)`, which lies in `[width*(height-1),
width*(height-1)+width)` (the bottom row), sets exactly that cell to 65 and
leaves every other cell unchanged; consequently the whole injection phase
(which performs `int(width/9)` such injections, see `injectPhase`) changes
only bottom-row cells and only to the value 65. -/
theorem C5_injection (width height : Nat) (rand : Nat → Nat) (b : List Int)
    (hh : 0 < height) (hlen : b.length = width * height + width + 1)
    (hr : ∀ k, rand k < width) :
    (∀ c, c < width →
      (width * (height - 1) ≤ c + width * (height - 1) ∧
        c + width * (height - 1) < width * (height - 1) + width) ∧
      (injectOne width height c b).getD (c + width * (height - 1)) 0 = 65 ∧
      (∀ j, j ≠ c + width * (height - 1) →
        (injectOne width height c b).getD j 0 = b.getD j 0)) ∧
    (∀ j, (injectPhase width height rand b).getD j 0 ≠ b.getD j 0 →
      (injectPhase width height rand b).getD j 0 = 65 ∧
        width * (height - 1) ≤ j ∧ j < width * (height - 1) + width) := by
  constructor
  · intro c hc
    have hidx : c + width * (height - 1) < b.length := by
      rw [hlen]
      rcases height with _ | h
      · omega
      · simp only [Nat.succ_sub_one, Nat.mul_succ]
        omega
    exact ⟨⟨by omega, by omega⟩,
      injectOne_getD_target width height c b hidx,
      injectOne_getD_other width height c b⟩
  · intro j hne
    exact injectFold_changes width height rand (List.range (width / 9)) b j hr hne

/-- Witness for C5 at `width = 9`, `height = 3`, constant draw 2, on the
freshly allocated buffer. -/
theorem C5_witness :
    0 < 3 ∧ (initBuf 9 3).length = 9 * 3 + 9 + 1 ∧ (∀ k : Nat, (fun _ : Nat => 2) k < 9) ∧
    ((∀ c, c < 9 →
      (9 * (3 - 1) ≤ c + 9 * (3 - 1) ∧ c + 9 * (3 - 1) < 9 * (3 - 1) + 9) ∧
      (injectOne 9 3 c (initBuf 9 3)).getD (c + 9 * (3 - 1)) 0 = 65 ∧
      (∀ j, j ≠ c + 9 * (3 - 1) →
        (injectOne 9 3 c (initBuf 9 3)).getD j 0 = (initBuf 9 3).getD j 0)) ∧
    (∀ j, (injectPhase 9 3 (fun _ => 2) (initBuf 9 3)).getD j 0 ≠ (initBuf 9 3).getD j 0 →
      (injectPhase 9 3 (fun _ => 2) (initBuf 9 3)).getD j 0 = 65 ∧
        9 * (3 - 1) ≤ j ∧ j < 9 * (3 - 1) + 9)) :=
  ⟨by norm_num, by rfl, fun _ => by norm_num,
    C5_injection 9 3 (fun _ => 2) (initBuf 9 3) (by norm_num) (by rfl) (fun _ => by norm_num)⟩

/-- C6: starting from the all-zero buffer, after any sequence of injection
phases (which write 65) and in-place diffusion passes (which write the
truncated quarter of a sum of four cells), every buffer value is
non-negative. -/
theorem C6_nonneg (width height : Nat) (ops : List FrameOp) (j : Nat) :
    0 ≤ (runOps width height ops).getD j 0 :=
  (heatBounded_runOps width height ops j).1

/-- C7: for heat values the glyph ramp index is `min v 9`; it is monotone
in the heat value and always lies in `[0, 9]`. -/
theorem C7_ramp_min_monotone (v1 v2 : Int) (h0 : 0 ≤ v1) (h12 : v1 < v2) :
    rampIdx v1 = min v1 9 ∧ rampIdx v2 = min v2 9 ∧ rampIdx v1 ≤ rampIdx v2 ∧
    0 ≤ rampIdx v1 ∧ rampIdx v1 ≤ 9 ∧ 0 ≤ rampIdx v2 ∧ rampIdx v2 ≤ 9 := by
  unfold rampIdx
  split_ifs <;> omega

/-- Witness for C7 at `v1 = 3`, `v2 = 12`. -/
theorem C7_witness :
    (0 : Int) ≤ 3 ∧ (3 : Int) < 12 ∧
    (rampIdx 3 = min 3 9 ∧ rampIdx 12 = min 12 9 ∧ rampIdx 3 ≤ rampIdx 12 ∧
      0 ≤ rampIdx 3 ∧ rampIdx 3 ≤ 9 ∧ 0 ≤ rampIdx 12 ∧ rampIdx 12 ≤ 9) :=
  ⟨by norm_num, by norm_num, C7_ramp_min_monotone 3 12 (by norm_num) (by norm_num)⟩

/-- C8, as stated: every exit path prints the BUNIT summary message. This
is false for the startup-interrupt path: the top-level handler (flame9.py
lines 77-79) exits with status 0 but prints `"\nAnimation stopped.\n"`,
which is not the BUNIT message for the 0 frames completed at that point. -/
theorem C8_claim_false :
    exitCode ExitPath.startupInterrupt = 0 ∧
    exitMessage ExitPath.startupInterrupt = "\nAnimation stopped.\n" ∧
    exitMessage ExitPath.startupInterrupt ≠ stopMessage 0 :=
  ⟨rfl, rfl, by decide⟩

/-- C8 (amended): every exit path ends with exit status 0; a key press
first arriving at the poll with `frame_count = N` (so after exactly `N`
completed frames) stops the loop with `frame_count = N`, and the key-stop
and in-loop-interrupt paths print the BUNIT summary reporting exactly the
`frame_count` frames; only an interrupt before the frame loop prints
`"\nAnimation stopped.\n"` instead. -/
theorem C8_exit_paths (keys : Nat → Bool) (N : Nat)
    (hbefore : ∀ m, m < N → keys m = false) (hkey : keys N = true) :
    loopExit keys 0 (N + 1) = some N ∧
    (∀ p : ExitPath, exitCode p = 0) ∧
    exitMessage (ExitPath.keyStop N) = stopMessage N ∧
    (∀ n, exitMessage (ExitPath.loopInterrupt n) = stopMessage n) ∧
    exitMessage ExitPath.startupInterrupt = "\nAnimation stopped.\n" := by
  refine ⟨?_, fun p => rfl, rfl, fun n => rfl, rfl⟩
  exact loopExit_first_key keys (N + 1) 0 N (Nat.zero_le N) (by omega)
    (fun m _ hm => hbefore m hm) hkey

/-- Witness for C8 (amended): the first key arrives at the third poll
(`frame_count = 2`). -/
theorem C8_witness :
    (∀ m, m < 2 → (fun k => decide (2 ≤ k)) m = false) ∧
    (fun k => decide (2 ≤ k)) 2 = true ∧
    (loopExit (fun k => decide (2 ≤ k)) 0 (2 + 1) = some 2 ∧
      (∀ p : ExitPath, exitCode p = 0) ∧
      exitMessage (ExitPath.keyStop 2) = stopMessage 2 ∧
      (∀ n, exitMessage (ExitPath.loopInterrupt n) = stopMessage n) ∧
      exitMessage ExitPath.startupInterrupt = "\nAnimation stopped.\n") :=
  ⟨by decide, by decide, C8_exit_paths (fun k => decide (2 ≤ k)) 2 (by decide) (by decide)⟩

/-- C9: starting from the all-zero buffer, after any sequence of injection
phases and diffusion passes, every buffer value is at most 65: injections
write exactly 65, and the diffusion update of four values `≤ 65` is at most
`260 / 4 = 65`. -/
theorem C9_upper_bound (width height : Nat) (ops : List FrameOp) (j : Nat) :
    (runOps width height ops).getD j 0 ≤ 65 :=
  (heatBounded_runOps width height ops j).2

/-- C10: if `width < 9` the injection loop runs `int(width/9) = 0` times,
so the injection phase is the identity and the buffer stays identically
zero for the entire run; every cell then renders the coldest glyph (ramp
index 0) in colour tier 1, no matter how many operations elapse. -/
theorem C10_cold_below_nine (width height : Nat) (ops : List FrameOp) (j : Nat)
    (hw : width < 9) :
    (runOps width height ops).getD j 0 = 0 ∧
    rampIdx ((runOps width height ops).getD j 0) = 0 ∧
    colorOf ((runOps width height ops).getD j 0) = 1 ∧
    (∀ (rand : Nat → Nat) (b : List Int), injectPhase width height rand b = b) := by
  have hz := allZero_runOps width height ops hw
  refine ⟨hz j, ?_, ?_, fun rand b => injectPhase_of_lt_nine width height rand b hw⟩
  · rw [hz j]
    decide
  · rw [hz j]
    decide

/-- Witness for C10 at `width = 5`, `height = 2`, one injection phase and
one diffusion pass, cell 3. -/
theorem C10_witness :
    5 < 9 ∧
    ((runOps 5 2 [FrameOp.inject (fun _ => 0), FrameOp.diffuse]).getD 3 0 = 0 ∧
      rampIdx ((runOps 5 2 [FrameOp.inject (fun _ => 0), FrameOp.diffuse]).getD 3 0) = 0 ∧
      colorOf ((runOps 5 2 [FrameOp.inject (fun _ => 0), FrameOp.diffuse]).getD 3 0) = 1 ∧
      (∀ (rand : Nat → Nat) (b : List Int), injectPhase 5 2 rand b = b)) :=
  ⟨by norm_num, C10_cold_below_nine 5 2 [FrameOp.inject (fun _ => 0), FrameOp.diffuse] 3 (by norm_num)⟩
